import Mathlib

/-!
# Verification of the unirest-go request builder

A shallow embedding of the `unirest` package: the copy-on-write request
builder (`HTTPClient`), request materialization (`ParseRequest`), sending
(`Send`) and the response wrapper (`Response.AsBytes` / `Response.AsString`).

Modelling conventions:
* Go strings used as keys/values/URLs are Lean `String`s; Go byte slices
  (`[]byte`) are `Option (List Nat)` — `none` is the `nil` slice, each byte
  a `Nat < 256` (the inputs exercised here are ASCII, where a Go byte and a
  character coincide).
* Go maps (`url.Values`, `http.Header`) are association lists from keys to
  ordered value lists (`Vals`).  Go maps are unordered, so the position of a
  key in the list is a modelling artifact; per-key value order is real and is
  preserved exactly as `textproto.MIMEHeader.Add` / `url.Values.Add` do.
* Pointer aliasing of builders (needed for the clone-or-mutate protocol) is
  modelled by a store (`Store := List HTTPClient`) indexed by `Nat`
  references; a value-level function gives the state transformation and the
  store-level runner decides clone-vs-in-place exactly as the Go methods do.
* `net/url.Parse` is external library code; the model keeps its first check
  (rejection of URLs containing an ASCII control byte, the error the library
  reports as "net/url: invalid control character in URL") and treats other,
  rarer parse failures as success.
* `mime/multipart` writing is modelled structurally: the produced body is the
  ordered list of parts (file parts, then field parts), with the random
  boundary passed in as a parameter.
-/

namespace Unirest

/-! ## Strings and association-list maps -/

/-- Go `strings.TrimRight(s, "/")`: drop every trailing `/`. -/
def trimRightSlash (s : String) : String :=
  String.mk ((s.data.reverse.dropWhile (fun c => c == '/')).reverse)

/-- Go `path[0] == '/'` for a (possibly empty) string: first byte is a slash. -/
def strStartsSlash (s : String) : Bool :=
  match s.data with
  | c :: _ => c == '/'
  | [] => false

/-- Last character is a slash (used to state "no trailing slash"). -/
def strEndsSlash (s : String) : Bool :=
  match s.data.getLast? with
  | some c => c == '/'
  | none => false

/-- Go `map[string][]string` (`url.Values` / `http.Header`): an association
list from keys to ordered, nonempty value lists.  Key order is a modelling
artifact (Go maps are unordered). -/
abbrev Vals := List (String × List String)

/-- Look up the values stored under a key (empty when absent), as Go's
`m[k]` on a `map[string][]string`. -/
def valsGet : Vals → String → List String
  | [], _ => []
  | (k', vs) :: rest, k => if k' == k then vs else valsGet rest k

/-- Key membership, as Go's `_, ok := m[k]`. -/
def valsHas : Vals → String → Bool
  | [], _ => false
  | (k', _) :: rest, k => k' == k || valsHas rest k

/-- Go `m[k] = append(m[k], v)` (the body of `url.Values.Add` /
`textproto.MIMEHeader.Add`): append `v` to the values of `k`, creating the
key when absent. -/
def valsAdd : Vals → String → String → Vals
  | [], k, v => [(k, [v])]
  | (k', vs) :: rest, k, v =>
    if k' == k then (k', vs ++ [v]) :: rest
    else (k', vs) :: valsAdd rest k v

/-- Go `delete(m, k)` (the body of `textproto.MIMEHeader.Del`). -/
def valsDel : Vals → String → Vals
  | [], _ => []
  | (k', vs) :: rest, k => if k' == k then valsDel rest k else (k', vs) :: valsDel rest k

/-- Go `m[k] = []string{v}` (the body of `textproto.MIMEHeader.Set`).  On a
map this replaces the whole entry; the list position is an artifact, so the
model removes the key and appends the singleton entry. -/
def valsSet (m : Vals) (k v : String) : Vals :=
  valsDel m k ++ [(k, [v])]

/-- Number of keys is zero, as Go's `len(m) == 0`. -/
def valsIsEmpty (m : Vals) : Bool := m.isEmpty

/-! ## Header key canonicalization (`textproto.CanonicalMIMEHeaderKey`) -/

/-- Go `validHeaderFieldByte`: bytes legal in a MIME header key
(alphanumerics and `! # $ % & ' * + - . ^ _ \x60 | ~`). -/
def validHeaderFieldChar (c : Char) : Bool :=
  let n := c.toNat
  (65 ≤ n && n ≤ 90) || (97 ≤ n && n ≤ 122) || (48 ≤ n && n ≤ 57) ||
  [33, 35, 36, 37, 38, 39, 42, 43, 45, 46, 94, 95, 96, 124, 126].contains n

/-- One step of canonicalization: uppercase when `up` (start of the key or
after a hyphen), lowercase otherwise. -/
def canonChar (up : Bool) (c : Char) : Char :=
  if up then (if 97 ≤ c.toNat && c.toNat ≤ 122 then Char.ofNat (c.toNat - 32) else c)
  else (if 65 ≤ c.toNat && c.toNat ≤ 90 then Char.ofNat (c.toNat + 32) else c)

/-- Canonicalize a character list; the flag records whether the next letter
starts a hyphen-separated word. -/
def canonChars : Bool → List Char → List Char
  | _, [] => []
  | up, c :: cs => canonChar up c :: canonChars (c == '-') cs

/-- Go `textproto.CanonicalMIMEHeaderKey`: canonical word-capitalised form
when every byte is a valid header-field byte, the key unchanged otherwise. -/
def canonKey (s : String) : String :=
  if s.data.all validHeaderFieldChar then String.mk (canonChars true s.data) else s

/-- Go `http.Header.Add`: canonicalize the key, then append the value. -/
def headerAdd (m : Vals) (k v : String) : Vals := valsAdd m (canonKey k) v

/-- Go `http.Header.Set`: canonicalize the key, then replace the entry. -/
def headerSet (m : Vals) (k v : String) : Vals := valsSet m (canonKey k) v

/-- Go `http.Header.Del`: canonicalize the key, then remove the entry. -/
def headerDel (m : Vals) (k : String) : Vals := valsDel m (canonKey k)

/-- The values stored under a (canonicalized) header key. -/
def headerGet (m : Vals) (k : String) : List String := valsGet m (canonKey k)

/-! ## Byte-level encoders (`url.QueryEscape`, `url.Values.Encode`, base64) -/

/-- UTF-8 encoding of one code point (Go strings are UTF-8 byte sequences). -/
def utf8Char (n : Nat) : List Nat :=
  if n < 0x80 then [n]
  else if n < 0x800 then [0xC0 + n / 64, 0x80 + n % 64]
  else if n < 0x10000 then [0xE0 + n / 4096, 0x80 + (n / 64) % 64, 0x80 + n % 64]
  else [0xF0 + n / 262144, 0x80 + (n / 4096) % 64, 0x80 + (n / 64) % 64, 0x80 + n % 64]

/-- The UTF-8 bytes of a string, as Go `[]byte(s)`. -/
def utf8Bytes (s : String) : List Nat :=
  (s.data.map (fun c => utf8Char c.toNat)).flatten

/-- Uppercase hexadecimal digit, as Go's `"0123456789ABCDEF"[n]`. -/
def hexDigit (n : Nat) : Char :=
  if n < 10 then Char.ofNat (48 + n) else Char.ofNat (55 + n)

/-- Go `url.shouldEscape(c, encodeQueryComponent)`: everything but
alphanumerics and `- _ . ~` is percent-escaped in a query component. -/
def shouldEscapeQuery (b : Nat) : Bool :=
  !((65 ≤ b && b ≤ 90) || (97 ≤ b && b ≤ 122) || (48 ≤ b && b ≤ 57) ||
    [45, 46, 95, 126].contains b)

/-- Escape one byte as `url.QueryEscape` does: space becomes `+`, reserved
bytes become `%XX`, unreserved ASCII bytes stand for themselves. -/
def escapeQueryByte (b : Nat) : String :=
  if b == 32 then "+"
  else if shouldEscapeQuery b then String.mk [Char.ofNat 37, hexDigit (b / 16), hexDigit (b % 16)]
  else String.mk [Char.ofNat b]

/-- Go `url.QueryEscape`. -/
def queryEscape (s : String) : String :=
  String.join ((utf8Bytes s).map escapeQueryByte)

/-- Insert a key into a `≤`-sorted list (Go `sort.Strings` sorts keys
ascending; keys here are distinct). -/
def insertSorted (k : String) : List String → List String
  | [] => [k]
  | x :: xs => if k ≤ x then k :: x :: xs else x :: insertSorted k xs

/-- Sort the key list ascending, as `sort.Strings` does in `Values.Encode`. -/
def sortKeys : List String → List String
  | [] => []
  | x :: xs => insertSorted x (sortKeys xs)

/-- Go `url.Values.Encode`: keys sorted, every `key=value` pair escaped and
joined with `&`, multi-values kept in per-key insertion order. -/
def encodeVals (m : Vals) : String :=
  String.intercalate "&"
    (((sortKeys (m.map Prod.fst)).map
        (fun k => (valsGet m k).map (fun v => queryEscape k ++ "=" ++ queryEscape v))).flatten)

/-- The standard base64 alphabet (`base64.StdEncoding`). -/
def base64Alphabet : List Char :=
  "ABCDEFGHIJKLMNOPQRSTUVWXYZabcdefghijklmnopqrstuvwxyz0123456789+/".data

/-- Digit of the standard base64 alphabet. -/
def b64Char (n : Nat) : Char := base64Alphabet.getD n (Char.ofNat 61)

/-- Go `base64.StdEncoding.EncodeToString`, used by `Request.SetBasicAuth`. -/
def base64Encode : List Nat → String
  | [] => ""
  | [a] =>
    String.mk [b64Char (a / 4), b64Char (a % 4 * 16), Char.ofNat 61, Char.ofNat 61]
  | [a, b] =>
    String.mk [b64Char (a / 4), b64Char (a % 4 * 16 + b / 16), b64Char (b % 16 * 4),
      Char.ofNat 61]
  | a :: b :: c :: rest =>
    String.mk [b64Char (a / 4), b64Char (a % 4 * 16 + b / 16),
      b64Char (b % 16 * 4 + c / 64), b64Char (c % 64)] ++ base64Encode rest

/-! ## The builder -/

/-- One file attachment (`fileField` in the source). -/
structure FileField where
  key : String
  filename : String
  content : List Nat
deriving DecidableEq, Repr

/-- The `HTTPClient` builder state: query/form/header maps, file
attachments, base URL and accumulated path, optional raw body, method,
basic-auth pair and the auto-clone flag (`makeCopy`). -/
structure HTTPClient where
  query : Vals
  form : Vals
  files : List FileField
  url : String
  path : String
  body : Option (List Nat)
  method : String
  header : Vals
  basicAuth : String × String
  makeCopy : Bool
deriving DecidableEq, Repr

/-- `New()`: empty maps, no files, method `GET`, auto-clone on. -/
def New : HTTPClient :=
  { query := [], form := [], files := [], url := "", path := "", body := none,
    method := "GET", header := [], basicAuth := ("", ""), makeCopy := true }

/-- `SetURL`: strip trailing slashes, store as base URL. -/
def HTTPClient.SetURL (c : HTTPClient) (u : String) : HTTPClient :=
  { c with url := trimRightSlash u }

/-- The segment `AppendPath` concatenates for a nonempty input: a leading
slash is prepended when missing, then trailing slashes are stripped. -/
def segOf (p : String) : String :=
  trimRightSlash (if strStartsSlash p then p else "/" ++ p)

/-- `AppendPath`: no-op on the empty string, else concatenate the
normalized segment onto the accumulated path. -/
def HTTPClient.AppendPath (c : HTTPClient) (p : String) : HTTPClient :=
  if p = "" then c else { c with path := c.path ++ segOf p }

/-- `AddQuery`: append the value under the key (multi-value). -/
def HTTPClient.AddQuery (c : HTTPClient) (k v : String) : HTTPClient :=
  { c with query := valsAdd c.query k v }

/-- `AddHeader`: append the value under the canonicalized key. -/
def HTTPClient.AddHeader (c : HTTPClient) (k v : String) : HTTPClient :=
  { c with header := headerAdd c.header k v }

/-- `AddFormField`: append the value under the key and force method `POST`. -/
def HTTPClient.AddFormField (c : HTTPClient) (k v : String) : HTTPClient :=
  { c with form := valsAdd c.form k v, method := "POST" }

/-- `AddFile`: append an attachment record and force method `POST`. -/
def HTTPClient.AddFile (c : HTTPClient) (k fn : String) (content : List Nat) : HTTPClient :=
  { c with files := c.files ++ [⟨k, fn, content⟩], method := "POST" }

/-- `SetBasicAuth`: store the credential pair. -/
def HTTPClient.SetBasicAuth (c : HTTPClient) (user pass : String) : HTTPClient :=
  { c with basicAuth := (user, pass) }

/-- `SetJSONBody`: store the bytes, set `Content-Type: application/json`,
force method `POST`. -/
def HTTPClient.SetJSONBody (c : HTTPClient) (j : Option (List Nat)) : HTTPClient :=
  { c with
    body := j
    header := headerSet c.header "Content-Type" "application/json"
    method := "POST" }

/-- `SetRawBody`: store the bytes, force method `POST`, delete any
`Content-Type` header. -/
def HTTPClient.SetRawBody (c : HTTPClient) (b : Option (List Nat)) : HTTPClient :=
  { c with body := b, method := "POST", header := headerDel c.header "Content-Type" }

/-- `Get`: force method `GET`. -/
def HTTPClient.Get (c : HTTPClient) : HTTPClient := { c with method := "GET" }

/-- `Post`: force method `POST`. -/
def HTTPClient.Post (c : HTTPClient) : HTTPClient := { c with method := "POST" }

/-! ## Materialization (`ParseRequest`) -/

/-- The conflict error of step 5 of `ParseRequest`. -/
def conflictMsg : String := "unirest-go: can send this request with multiple content type"

/-- The error `net/url.Parse` reports for a URL with a control byte. -/
def ctlMsg : String := "net/url: invalid control character in URL"

/-- The error `Response.AsBytes` reports when no response is present. -/
def notSentMsg : String := "the request is not sent"

/-- `strings.ContainsCTLByte`: some byte is below 0x20 or equals 0x7f
(control characters have single-byte UTF-8 encodings, so the character-level
check coincides with Go's byte-level one). -/
def hasCTL (s : String) : Bool :=
  s.data.any (fun c => c.toNat < 32 || c.toNat == 127)

/-- `net/url.Parse`, abstracted to its up-front rejection of control bytes;
the library's other, rarer failure modes are not modelled and count as
success here. -/
def urlParse (s : String) : Except String Unit :=
  if hasCTL s then Except.error ctlMsg else Except.ok ()

/-- One part of a `multipart/form-data` body: a form-file part written by
`writer.CreateFormFile` + `fw.Write`, or a regular field part written by
`writer.WriteField`. -/
inductive MultipartPart where
  | filePart (key filename : String) (content : List Nat)
  | fieldPart (key value : String)
deriving DecidableEq, Repr

/-- The materialized request body: absent, raw bytes, a multipart body with
its boundary, or a URL-encoded form body. -/
inductive Body where
  | empty
  | raw (bytes : List Nat)
  | multipartData (parts : List MultipartPart) (boundary : String)
  | urlencoded (s : String)
deriving DecidableEq, Repr

/-- The transport-native request produced by `ParseRequest`: method, header
map, target URL string, encoded query (when any) and body. -/
structure Request where
  method : String
  header : Vals
  urlStr : String
  rawQuery : Option String
  body : Body
deriving DecidableEq, Repr

/-- The method/target/query/body of a request — everything except the
header map. -/
def reqCore (r : Request) : String × String × Option String × Body :=
  (r.method, r.urlStr, r.rawQuery, r.body)

/-- Step 5's condition: a body is set (non-nil) and files or form fields are
present. -/
def conflictB (c : HTTPClient) : Bool :=
  c.body.isSome && (!c.files.isEmpty || !valsIsEmpty c.form)

/-- Steps 1–2 of `ParseRequest`: the header after `Set("User-Agent", ...)`
and, when the username is nonempty, `SetBasicAuth` (which sets
`Authorization: Basic <base64(user:pass)>`).  The request's header map IS
the builder's map (`Header: c.header` aliases it), so these writes land in
the builder's own header. -/
def headerAfterAuth (c : HTTPClient) : Vals :=
  let h1 := headerSet c.header "User-Agent" "Unirest-Go/1.0"
  if c.basicAuth.1 ≠ "" then
    headerSet h1 "Authorization"
      ("Basic " ++ base64Encode (utf8Bytes (c.basicAuth.1 ++ ":" ++ c.basicAuth.2)))
  else h1

/-- The file parts written by the multipart branch, in attachment order. -/
def fileParts (fs : List FileField) : List MultipartPart :=
  fs.map (fun f => MultipartPart.filePart f.key f.filename f.content)

/-- The regular field parts written by the multipart branch.  Go iterates
the form map in unspecified order; the model fixes key insertion order. -/
def formParts (m : Vals) : List MultipartPart :=
  (m.map (fun p => p.2.map (fun v => MultipartPart.fieldPart p.1 v))).flatten

/-- Step 6, the body actually selected (exactly one branch, in the source's
priority order): raw bytes when a body is set, else multipart when files are
present, else URL-encoded form when form fields are present, else none. -/
def selectBody (boundary : String) (c : HTTPClient) : Body :=
  match c.body with
  | some bs => Body.raw bs
  | none =>
    if !c.files.isEmpty then
      Body.multipartData (fileParts c.files ++ formParts c.form) boundary
    else if !valsIsEmpty c.form then Body.urlencoded (encodeVals c.form)
    else Body.empty

/-- Step 6's header effect: the multipart branch sets `Content-Type` to the
boundary value, the form branch sets `application/x-www-form-urlencoded`,
the other branches leave the header alone. -/
def headerAfterBody (boundary : String) (c : HTTPClient) (h : Vals) : Vals :=
  match c.body with
  | some _ => h
  | none =>
    if !c.files.isEmpty then
      headerSet h "Content-Type" ("multipart/form-data; boundary=" ++ boundary)
    else if !valsIsEmpty c.form then
      headerSet h "Content-Type" "application/x-www-form-urlencoded"
    else h

/-- `ParseRequest`.  The random multipart boundary is passed in as
`boundary`.  Returns the post-state of the builder together with the result:
because `req.Header` aliases `c.header`, every header write of the algorithm
is also visible through the builder afterwards, and the post-state records
exactly the writes performed up to the point of return. -/
def parseRequest (boundary : String) (c : HTTPClient) :
    HTTPClient × Except String Request :=
  let h2 := headerAfterAuth c
  if hasCTL (c.url ++ c.path) then ({ c with header := h2 }, Except.error ctlMsg)
  else if conflictB c then ({ c with header := h2 }, Except.error conflictMsg)
  else
    let h3 := headerAfterBody boundary c h2
    ({ c with header := h3 },
      Except.ok
        { method := c.method
          header := h3
          urlStr := c.url ++ c.path
          rawQuery := if valsIsEmpty c.query then none else some (encodeVals c.query)
          body := selectBody boundary c })

/-! ## Sending and the response wrapper -/

/-- The `Response` wrapper: an optional transport response (modelled by its
body bytes) and the deferred send-time error. -/
structure Response where
  resp : Option (List Nat)
  err : Option String
deriving DecidableEq, Repr

/-- `Send`: materialize, and on error return a wrapper carrying only that
error; otherwise run the transport (`http.Client.Do`, modelled as a
parameter) and capture its error or its response the same way. -/
def send (transport : Request → Except String (List Nat)) (boundary : String)
    (c : HTTPClient) : Response :=
  match (parseRequest boundary c).2 with
  | Except.error e => { resp := none, err := some e }
  | Except.ok req =>
    match transport req with
    | Except.error e => { resp := none, err := some e }
    | Except.ok bs => { resp := some bs, err := none }

/-- `b2s`: the source reinterprets the byte slice as a string with no copy
and no validation; on byte sequences this is the identity. -/
def b2s (bs : List Nat) : List Nat := bs

/-- `Response.AsBytes`: a deferred error wins; with no response present the
"request is not sent" error is reported; otherwise the whole body is read. -/
def Response.AsBytes (r : Response) : Except String (List Nat) :=
  match r.err with
  | some e => Except.error e
  | none =>
    match r.resp with
    | none => Except.error notSentMsg
    | some bs => Except.ok bs

/-- `Response.AsString`: delegate to `AsBytes` and reinterpret the bytes via
`b2s` (a Go string being a byte sequence, the text is the same bytes). -/
def Response.AsString (r : Response) : Except String (List Nat) :=
  match r.AsBytes with
  | Except.error e => Except.error e
  | Except.ok bs => Except.ok (b2s bs)

/-! ## The store model of builder references

A builder reference is an index into a store of builder states.  `Clone`
deep-copies the map fields and value-copies the rest, which on this state
representation is exactly "allocate a fresh cell with the same value"; a
mutator on a `makeCopy` builder works on such a fresh cell, while on a
non-copying builder it updates the cell in place and returns the same
reference. -/

/-- The store of live builder states; a builder reference is an index. -/
abbrev Store := List HTTPClient

/-- The eleven mutators of the public API (everything that follows the
`if c.makeCopy { c = c.Clone() }` pattern). -/
inductive Mutator where
  | setURL (u : String)
  | appendPath (p : String)
  | addQuery (k v : String)
  | addHeader (k v : String)
  | addFormField (k v : String)
  | addFile (k fn : String) (content : List Nat)
  | setBasicAuth (user pass : String)
  | setJSONBody (j : Option (List Nat))
  | setRawBody (b : Option (List Nat))
  | get
  | post
deriving DecidableEq, Repr

/-- The state transformation each mutator performs (after the optional
clone). -/
def Mutator.core : Mutator → HTTPClient → HTTPClient
  | .setURL u, c => c.SetURL u
  | .appendPath p, c => c.AppendPath p
  | .addQuery k v, c => c.AddQuery k v
  | .addHeader k v, c => c.AddHeader k v
  | .addFormField k v, c => c.AddFormField k v
  | .addFile k fn content, c => c.AddFile k fn content
  | .setBasicAuth u p, c => c.SetBasicAuth u p
  | .setJSONBody j, c => c.SetJSONBody j
  | .setRawBody b, c => c.SetRawBody b
  | .get, c => c.Get
  | .post, c => c.Post

/-- Run a mutator on the builder referenced by `i`: when its `makeCopy` flag
is set the mutation happens on a freshly allocated clone and the fresh
reference is returned; otherwise the cell is updated in place and the same
reference is returned. -/
def runMutator (m : Mutator) (σ : Store) (i : Nat) : Store × Nat :=
  match σ[i]? with
  | none => (σ, i)
  | some c =>
    if c.makeCopy then (σ ++ [m.core c], σ.length)
    else (σ.set i (m.core c), i)

/-- `AutoClone(b)`: `c = c.Clone()` unconditionally (a fresh cell with the
same state), then the flag is set to `b` on the clone. -/
def autoCloneOp (σ : Store) (i : Nat) (b : Bool) : Store × Nat :=
  match σ[i]? with
  | none => (σ, i)
  | some c => (σ ++ [{ c with makeCopy := b }], σ.length)

/-! ## Lemmas about the association-list maps -/

theorem beqF {a b : String} (h : a ≠ b) : (a == b) = false := beq_eq_false_iff_ne.mpr h

theorem beqT {a b : String} (h : a = b) : (a == b) = true := beq_iff_eq.mpr h

theorem valsGet_eq_nil_of_has_eq_false {m : Vals} {k : String} (h : valsHas m k = false) :
    valsGet m k = [] := by
  induction m with
  | nil => rfl
  | cons p rest ih =>
    obtain ⟨k₀, vs⟩ := p
    by_cases h₀ : k₀ = k
    · simp [valsHas, beqT h₀] at h
    · simp [valsHas, beqF h₀] at h
      simp [valsGet, beqF h₀, ih h]

theorem valsHas_del_self (m : Vals) (k : String) : valsHas (valsDel m k) k = false := by
  induction m with
  | nil => rfl
  | cons p rest ih =>
    obtain ⟨k₀, vs⟩ := p
    by_cases h₀ : k₀ = k
    · simp [valsDel, beqT h₀, ih]
    · simp [valsDel, valsHas, beqF h₀, ih]

theorem valsHas_del_ne (m : Vals) {k' k : String} (h : k' ≠ k) :
    valsHas (valsDel m k) k' = valsHas m k' := by
  induction m with
  | nil => rfl
  | cons p rest ih =>
    obtain ⟨k₀, vs⟩ := p
    by_cases h₀ : k₀ = k
    · have : k₀ ≠ k' := fun e => h (e.symm.trans h₀)
      simp [valsDel, valsHas, beqT h₀, beqF this, ih]
    · simp [valsDel, valsHas, beqF h₀, ih]

theorem valsGet_del_ne (m : Vals) {k' k : String} (h : k' ≠ k) :
    valsGet (valsDel m k) k' = valsGet m k' := by
  induction m with
  | nil => rfl
  | cons p rest ih =>
    obtain ⟨k₀, vs⟩ := p
    by_cases h₀ : k₀ = k
    · have : k₀ ≠ k' := fun e => h (e.symm.trans h₀)
      simp [valsDel, valsGet, beqT h₀, beqF this, ih]
    · simp [valsDel, valsGet, beqF h₀, ih]

theorem valsGet_append (l₁ l₂ : Vals) (k : String) :
    valsGet (l₁ ++ l₂) k = if valsHas l₁ k then valsGet l₁ k else valsGet l₂ k := by
  induction l₁ with
  | nil => simp [valsGet, valsHas]
  | cons p rest ih =>
    obtain ⟨k₀, vs⟩ := p
    by_cases h₀ : k₀ = k
    · simp [valsGet, valsHas, beqT h₀]
    · simp [valsGet, valsHas, beqF h₀, ih]

theorem valsHas_append (l₁ l₂ : Vals) (k : String) :
    valsHas (l₁ ++ l₂) k = (valsHas l₁ k || valsHas l₂ k) := by
  induction l₁ with
  | nil => simp [valsHas]
  | cons p rest ih =>
    obtain ⟨k₀, vs⟩ := p
    simp [valsHas, ih, Bool.or_assoc]

theorem valsGet_set_self (m : Vals) (k v : String) : valsGet (valsSet m k v) k = [v] := by
  simp [valsSet, valsGet_append, valsHas_del_self, valsGet]

theorem valsGet_set_ne (m : Vals) {k' k : String} (v : String) (h : k' ≠ k) :
    valsGet (valsSet m k v) k' = valsGet m k' := by
  have hk : k ≠ k' := fun e => h e.symm
  simp only [valsSet, valsGet_append, valsHas_del_ne m h, valsGet_del_ne m h]
  split
  · rfl
  · next hh =>
    simp only [Bool.not_eq_true] at hh
    simp [valsGet, beqF hk, valsGet_eq_nil_of_has_eq_false hh]

theorem valsHas_set_self (m : Vals) (k v : String) : valsHas (valsSet m k v) k = true := by
  simp [valsSet, valsHas_append, valsHas]

theorem valsHas_set_ne (m : Vals) {k' k : String} (v : String) (h : k' ≠ k) :
    valsHas (valsSet m k v) k' = valsHas m k' := by
  have hk : k ≠ k' := fun e => h e.symm
  simp [valsSet, valsHas_append, valsHas_del_ne m h, valsHas, beqF hk]

theorem valsGet_add (m : Vals) (k v k' : String) :
    valsGet (valsAdd m k v) k' =
      if k' = k then valsGet m k' ++ [v] else valsGet m k' := by
  induction m with
  | nil =>
    by_cases h : k' = k
    · simp [valsAdd, valsGet, beqT h.symm, h]
    · simp [valsAdd, valsGet, beqF (fun e => h e.symm), h]
  | cons p rest ih =>
    obtain ⟨k₀, vs⟩ := p
    by_cases h₀ : k₀ = k
    · by_cases h' : k' = k
      · simp [valsAdd, valsGet, beqT h₀, beqT (h₀.trans h'.symm), h']
      · have : k₀ ≠ k' := fun e => h' (e.symm.trans h₀)
        simp [valsAdd, valsGet, beqT h₀, beqF this, h']
    · by_cases h' : k₀ = k'
      · have hk : k' ≠ k := fun e => h₀ (h'.trans e)
        simp [valsAdd, valsGet, beqF h₀, beqT h', hk]
      · simp [valsAdd, valsGet, beqF h₀, beqF h', ih]

theorem valsHas_add (m : Vals) (k v k' : String) :
    valsHas (valsAdd m k v) k' = (valsHas m k' || k' == k) := by
  induction m with
  | nil =>
    by_cases h : k' = k
    · simp [valsAdd, valsHas, beqT h.symm, beqT h]
    · simp [valsAdd, valsHas, beqF (fun e => h e.symm), beqF h]
  | cons p rest ih =>
    obtain ⟨k₀, vs⟩ := p
    by_cases h₀ : k₀ = k
    · by_cases h' : k₀ = k'
      · simp [valsAdd, valsHas, beqT h₀, beqT h', beqT (h'.symm.trans h₀)]
      · have hk : k' ≠ k := fun e => h' (h₀.trans e.symm)
        simp [valsAdd, valsHas, beqT h₀, beqF h', beqF hk]
    · simp [valsAdd, valsHas, beqF h₀, ih, Bool.or_assoc]

/-! ## Shared helper lemmas -/

instance {ε α : Type} [DecidableEq ε] [DecidableEq α] : DecidableEq (Except ε α) := fun a b => by
  cases a <;> cases b
  case error.error e f => exact decidable_of_iff (e = f) (by simp)
  case error.ok => exact Decidable.isFalse (by simp)
  case ok.error => exact Decidable.isFalse (by simp)
  case ok.ok x y => exact decidable_of_iff (x = y) (by simp)

theorem canonKey_contentType : canonKey "Content-Type" = "Content-Type" := by decide

theorem canonKey_userAgent : canonKey "User-Agent" = "User-Agent" := by decide

theorem canonKey_authorization : canonKey "Authorization" = "Authorization" := by decide

theorem listNe_isEmpty {α : Type} {l : List α} (h : l ≠ []) : l.isEmpty = false := by
  cases l <;> simp_all

theorem hasCTL_false_of_urlParse {s : String} (h : urlParse s = Except.ok ()) :
    hasCTL s = false := by
  by_cases hc : hasCTL s
  · simp [urlParse, hc] at h
  · simpa using hc

theorem conflictB_eq_true {c : HTTPClient} (hb : c.body ≠ none)
    (hm : c.files ≠ [] ∨ c.form ≠ []) : conflictB c = true := by
  have h1 : c.body.isSome = true := Option.isSome_iff_ne_none.mpr hb
  rcases hm with hm | hm
  · simp [conflictB, h1, listNe_isEmpty hm]
  · simp [conflictB, valsIsEmpty, h1, listNe_isEmpty hm]

/-- In every branch `ParseRequest` hands back the receiver with only the
header replaced. -/
theorem parseRequest_fst (bd : String) (c : HTTPClient) :
    ∃ h, (parseRequest bd c).1 = { c with header := h } := by
  unfold parseRequest
  split
  · exact ⟨_, rfl⟩
  · split
    · exact ⟨_, rfl⟩
    · exact ⟨_, rfl⟩

/-- The header-independent components of a `ParseRequest` outcome (a proof
device: the control flow and every `reqCore` component of the result are
functions of the non-header fields only). -/
def parseCore (bd : String) (c : HTTPClient) :
    Except String (String × String × Option String × Body) :=
  if hasCTL (c.url ++ c.path) then Except.error ctlMsg
  else if conflictB c then Except.error conflictMsg
  else
    Except.ok (c.method, c.url ++ c.path,
      (if valsIsEmpty c.query then none else some (encodeVals c.query)), selectBody bd c)

theorem parseRequest_snd_map (bd : String) (c : HTTPClient) :
    Except.map reqCore (parseRequest bd c).2 = parseCore bd c := by
  unfold parseRequest parseCore
  split
  · rfl
  · split
    · rfl
    · rfl

theorem parseCore_header_irrel (bd : String) (c : HTTPClient) (h : Vals) :
    parseCore bd { c with header := h } = parseCore bd c := rfl

/-- Successful materialization, spelled out. -/
theorem parseRequest_ok (bd : String) (c : HTTPClient)
    (hctl : hasCTL (c.url ++ c.path) = false) (hconf : conflictB c = false) :
    (parseRequest bd c).2 = Except.ok
      { method := c.method
        header := headerAfterBody bd c (headerAfterAuth c)
        urlStr := c.url ++ c.path
        rawQuery := if valsIsEmpty c.query then none else some (encodeVals c.query)
        body := selectBody bd c } := by
  simp [parseRequest, hctl, hconf]

theorem headerAfterAuth_get_ne (c : HTTPClient) {k : String}
    (h1 : k ≠ "User-Agent") (h2 : k ≠ "Authorization") :
    valsGet (headerAfterAuth c) k = valsGet c.header k := by
  unfold headerAfterAuth headerSet
  rw [canonKey_userAgent, canonKey_authorization]
  split
  · rw [valsGet_set_ne _ _ h2, valsGet_set_ne _ _ h1]
  · rw [valsGet_set_ne _ _ h1]

theorem headerAfterBody_get_ne (bd : String) (c : HTTPClient) (h : Vals) {k : String}
    (hk : k ≠ "Content-Type") :
    valsGet (headerAfterBody bd c h) k = valsGet h k := by
  unfold headerAfterBody headerSet
  rw [canonKey_contentType]
  rcases c.body with _ | bs
  · simp only
    split
    · rw [valsGet_set_ne _ _ hk]
    · split
      · rw [valsGet_set_ne _ _ hk]
      · rfl
  · rfl

/-! ## C1: the clone-or-mutate protocol of the mutators -/

/-- **C1.** Every mutator (SetURL, AppendPath, AddQuery, AddHeader,
AddFormField, AddFile, SetBasicAuth, SetJSONBody, SetRawBody, Get, Post) on
a builder whose auto-clone flag is true performs its mutation on a freshly
allocated clone and returns the fresh reference, leaving the receiver's
cell — query, header, form, files, body and all — observably unchanged; on
a builder whose flag is false it mutates the receiver's cell in place and
returns the very same reference. -/
theorem mutator_copy_on_write (m : Mutator) (σ : Store) (i : Nat) (c : HTTPClient)
    (h : σ[i]? = some c) :
    (c.makeCopy = true →
      (runMutator m σ i).2 = σ.length ∧
      (runMutator m σ i).1[i]? = some c ∧
      (runMutator m σ i).1[σ.length]? = some (m.core c)) ∧
    (c.makeCopy = false →
      (runMutator m σ i).2 = i ∧
      (runMutator m σ i).1[i]? = some (m.core c)) := by
  have hlt : i < σ.length := (List.getElem?_eq_some.mp h).1
  constructor
  · intro hc
    simp only [runMutator, h, hc, if_true]
    refine ⟨trivial, ?_, ?_⟩
    · rw [List.getElem?_append_left hlt]
      exact h
    · exact List.getElem?_concat_length σ (m.core c)
  · intro hc
    simp only [runMutator, h, hc, Bool.false_eq_true, if_false]
    exact ⟨trivial, by simp [List.getElem?_set_self', hlt]⟩

/-- Witness for C1: in the store `[New]` (flag on), `AddQuery` leaves the
receiver's cell untouched, and on the flag-off builder it updates the cell
in place. -/
theorem mutator_copy_on_write_witness :
    (runMutator (Mutator.addQuery "q" "1") [New] 0).1[0]? = some New ∧
    (runMutator (Mutator.addQuery "q" "1") [{ New with makeCopy := false }] 0).2 = 0 := by
  refine ⟨?_, ?_⟩
  · exact ((mutator_copy_on_write (Mutator.addQuery "q" "1") [New] 0 New rfl).1 rfl).2.1
  · exact ((mutator_copy_on_write (Mutator.addQuery "q" "1")
      [{ New with makeCopy := false }] 0 { New with makeCopy := false } rfl).2 rfl).1

/-! ## C2: AutoClone -/

/-- A builder whose auto-clone flag has been switched off. -/
def offClient : HTTPClient := { New with makeCopy := false }

/-- **C2 counterexample.** The claim says `AutoClone(b)` clones the
receiver *respecting the receiver's current flag* for whether that clone
step mutates or copies — so on a flag-off builder it would mutate the
receiver in place and return the same reference.  The code clones
unconditionally: on the flag-off builder `offClient` the returned reference
is fresh and the receiver's cell is untouched (including its flag). -/
theorem autoClone_respects_flag_cex :
    (autoCloneOp [offClient] 0 true).2 ≠ 0 ∧
    (autoCloneOp [offClient] 0 true).1[0]? = some offClient := by decide

/-- **C2 (amended).** `AutoClone(b)` always deep-clones the receiver —
unconditionally, whatever the receiver's current flag — and sets the flag
to `b` on the fresh clone; consequently a mutator applied to
`B.AutoClone(b)` leaves `B`'s own query/header/form/files/body state
unchanged, so `B` serves as a reusable template. -/
theorem autoClone_always_clones (σ : Store) (i : Nat) (c : HTTPClient) (b : Bool)
    (h : σ[i]? = some c) :
    (autoCloneOp σ i b).2 = σ.length ∧
    (autoCloneOp σ i b).1[i]? = some c ∧
    (autoCloneOp σ i b).1[σ.length]? = some { c with makeCopy := b } ∧
    (∀ m : Mutator,
      (runMutator m (autoCloneOp σ i b).1 (autoCloneOp σ i b).2).1[i]? = some c) := by
  have hlt : i < σ.length := (List.getElem?_eq_some.mp h).1
  have h1 : (autoCloneOp σ i b).1 = σ ++ [{ c with makeCopy := b }] := by
    simp [autoCloneOp, h]
  have h2 : (autoCloneOp σ i b).2 = σ.length := by
    simp [autoCloneOp, h]
  have hcell : (σ ++ [{ c with makeCopy := b }])[σ.length]? =
      some { c with makeCopy := b } := List.getElem?_concat_length ..
  have hcopy : ({ c with makeCopy := b } : HTTPClient).makeCopy = b := rfl
  refine ⟨h2, ?_, ?_, ?_⟩
  · rw [h1, List.getElem?_append_left hlt]
    exact h
  · rw [h1]
    exact hcell
  · intro m
    rw [h1, h2]
    simp only [runMutator, hcell, hcopy]
    cases b
    · simp only [Bool.false_eq_true, if_false]
      rw [List.getElem?_set_ne (Nat.ne_of_lt hlt).symm,
        List.getElem?_append_left hlt]
      exact h
    · simp only [if_true]
      rw [List.getElem?_append_left
          (show i < (σ ++ [{ c with makeCopy := true }]).length by
            simp only [List.length_append, List.length_cons, List.length_nil]
            omega),
        List.getElem?_append_left hlt]
      exact h

/-- Witness for C2 at the concrete store `[New]`. -/
theorem autoClone_always_clones_witness :
    (autoCloneOp [New] 0 false).1[1]? = some { New with makeCopy := false } :=
  (autoClone_always_clones [New] 0 New false rfl).2.2.1

/-! ## C3: what materialization does to the builder -/

/-- The possible header post-states of `ParseRequest`. -/
theorem parseRequest_fst_header (bd : String) (c : HTTPClient) :
    (parseRequest bd c).1.header = headerAfterAuth c ∨
    (parseRequest bd c).1.header = headerAfterBody bd c (headerAfterAuth c) := by
  unfold parseRequest
  split
  · exact Or.inl rfl
  · split
    · exact Or.inl rfl
    · exact Or.inr rfl

/-- **C3 counterexample.** The claim says `ParseRequest` does not modify
the builder's accumulated state, in particular its header mapping.  It
does: the request's header map aliases the builder's
(`Header: c.header`), so `req.Header.Set("User-Agent", ...)` lands in the
builder — already on the freshly constructed `New()` the post-state
differs from the pre-state. -/
theorem parseRequest_pure_cex : (parseRequest "B" New).1 ≠ New := by decide

/-- **C3 (amended).** `ParseRequest` leaves the builder's query, form,
files, url, path, body, method, basic-auth pair and auto-clone flag
unchanged, but does write through the shared header mapping — only at the
`User-Agent`, `Authorization` and `Content-Type` keys; re-running
`ParseRequest` on the post-state builder yields the same outcome (the same
error, or a request with the same method, target, query string and body). -/
theorem parseRequest_frame (bd : String) (c : HTTPClient) :
    ((parseRequest bd c).1.query = c.query ∧
     (parseRequest bd c).1.form = c.form ∧
     (parseRequest bd c).1.files = c.files ∧
     (parseRequest bd c).1.url = c.url ∧
     (parseRequest bd c).1.path = c.path ∧
     (parseRequest bd c).1.body = c.body ∧
     (parseRequest bd c).1.method = c.method ∧
     (parseRequest bd c).1.basicAuth = c.basicAuth ∧
     (parseRequest bd c).1.makeCopy = c.makeCopy) ∧
    (∀ k : String, k ≠ "User-Agent" → k ≠ "Authorization" → k ≠ "Content-Type" →
      valsGet (parseRequest bd c).1.header k = valsGet c.header k) ∧
    Except.map reqCore (parseRequest bd (parseRequest bd c).1).2 =
      Except.map reqCore (parseRequest bd c).2 := by
  obtain ⟨hh, heq⟩ := parseRequest_fst bd c
  refine ⟨?_, ?_, ?_⟩
  · rw [heq]
    exact ⟨rfl, rfl, rfl, rfl, rfl, rfl, rfl, rfl, rfl⟩
  · intro k h1 h2 h3
    rcases parseRequest_fst_header bd c with he | he <;> rw [he]
    · exact headerAfterAuth_get_ne c h1 h2
    · rw [headerAfterBody_get_ne bd c _ h3]
      exact headerAfterAuth_get_ne c h1 h2
  · rw [parseRequest_snd_map, parseRequest_snd_map, heq, parseCore_header_irrel]

/-- Witness for C3 (amended) on a concrete builder with a form field. -/
theorem parseRequest_frame_witness :
    (parseRequest "B" (New.AddFormField "f" "1")).1.form =
      (New.AddFormField "f" "1").form ∧
    valsGet (parseRequest "B" (New.AddFormField "f" "1")).1.header "Q" =
      valsGet (New.AddFormField "f" "1").header "Q" := by
  refine ⟨(parseRequest_frame "B" (New.AddFormField "f" "1")).1.2.1, ?_⟩
  exact (parseRequest_frame "B" (New.AddFormField "f" "1")).2.1 "Q"
    (by decide) (by decide) (by decide)

/-! ## C4: the multiple-content-type conflict -/

/-- A builder holding both a raw body and a form field. -/
def conflictClient : HTTPClient := (New.AddFormField "f" "1").SetRawBody (some [120])

/-- `conflictClient` with a base URL containing a control byte. -/
def badURLClient : HTTPClient := conflictClient.SetURL (String.mk [Char.ofNat 1])

/-- **C4 counterexample.** The conflict check of `ParseRequest` runs only
after `url.Parse`, so a builder with a raw body AND a form field whose URL
contains a control byte fails with the URL parse error, not with the
claimed "multiple content type" conflict error. -/
theorem conflict_error_cex :
    badURLClient.body ≠ none ∧ badURLClient.form ≠ [] ∧
    (parseRequest "B" badURLClient).2 = Except.error ctlMsg ∧
    (parseRequest "B" badURLClient).2 ≠ Except.error conflictMsg := by decide

/-- **C4 (amended).** Provided the concatenated URL parses (step 3
succeeds), every builder with a raw/JSON body set and at least one form
field or file attachment fails `ParseRequest` with the multiple-content-type
conflict error; `Send` then returns a wrapper carrying only that error —
for every transport whatsoever, i.e. without a transport call — and
`AsBytes` on that wrapper returns that error. -/
theorem conflict_detection (bd : String) (c : HTTPClient)
    (tr : Request → Except String (List Nat))
    (hbody : c.body ≠ none) (hmix : c.files ≠ [] ∨ c.form ≠ [])
    (hurl : urlParse (c.url ++ c.path) = Except.ok ()) :
    (parseRequest bd c).2 = Except.error conflictMsg ∧
    send tr bd c = { resp := none, err := some conflictMsg } ∧
    (send tr bd c).AsBytes = Except.error conflictMsg := by
  have hctl := hasCTL_false_of_urlParse hurl
  have hconf := conflictB_eq_true hbody hmix
  have hp : (parseRequest bd c).2 = Except.error conflictMsg := by
    simp [parseRequest, hctl, hconf]
  have hs : send tr bd c = { resp := none, err := some conflictMsg } := by
    simp [send, hp]
  exact ⟨hp, hs, by rw [hs]; rfl⟩

/-- Witness for C4 (amended): the concrete conflicting builder, under an
arbitrary concrete transport. -/
theorem conflict_detection_witness :
    send (fun _ => Except.ok []) "B" conflictClient =
      { resp := none, err := some conflictMsg } :=
  (conflict_detection "B" conflictClient (fun _ => Except.ok [])
    (by decide) (Or.inr (by decide)) (by decide)).2.1

/-! ## C5: body selection -/

/-- **C5.** For every builder that reaches step 6 of `ParseRequest` (the
URL parses and the conflict check passes), materialization succeeds and
exactly one body branch is taken, in priority order: (a) the raw/JSON body
bytes when a body is set — with no step-6 header write; (b) otherwise
multipart/form-data when files are present, the parts being each file with
its field key, filename and content in attachment order followed by the
form fields as regular parts, and `Content-Type` set to the generated
boundary value; (c) otherwise the URL-encoded form body with
`Content-Type: application/x-www-form-urlencoded` when only form fields
are present; (d) otherwise no body. -/
theorem body_selection (bd : String) (c : HTTPClient)
    (hurl : urlParse (c.url ++ c.path) = Except.ok ())
    (hconf : conflictB c = false) :
    ∃ req : Request, (parseRequest bd c).2 = Except.ok req ∧
      (∀ bs, c.body = some bs →
        req.body = Body.raw bs ∧ req.header = headerAfterAuth c) ∧
      (c.body = none → c.files ≠ [] →
        req.body = Body.multipartData (fileParts c.files ++ formParts c.form) bd ∧
        valsGet req.header "Content-Type" = ["multipart/form-data; boundary=" ++ bd]) ∧
      (c.body = none → c.files = [] → c.form ≠ [] →
        req.body = Body.urlencoded (encodeVals c.form) ∧
        valsGet req.header "Content-Type" = ["application/x-www-form-urlencoded"]) ∧
      (c.body = none → c.files = [] → c.form = [] → req.body = Body.empty) := by
  have hctl := hasCTL_false_of_urlParse hurl
  refine ⟨_, parseRequest_ok bd c hctl hconf, ?_, ?_, ?_, ?_⟩
  · intro bs hb
    constructor
    · show selectBody bd c = Body.raw bs
      simp [selectBody, hb]
    · show headerAfterBody bd c (headerAfterAuth c) = headerAfterAuth c
      simp [headerAfterBody, hb]
  · intro hb hf
    constructor
    · show selectBody bd c = _
      simp [selectBody, hb, listNe_isEmpty hf]
    · show valsGet (headerAfterBody bd c (headerAfterAuth c)) "Content-Type" = _
      simp [headerAfterBody, hb, listNe_isEmpty hf, headerSet, canonKey_contentType,
        valsGet_set_self]
  · intro hb hf hfo
    constructor
    · show selectBody bd c = _
      simp [selectBody, hb, hf, valsIsEmpty, listNe_isEmpty hfo]
    · show valsGet (headerAfterBody bd c (headerAfterAuth c)) "Content-Type" = _
      simp [headerAfterBody, hb, hf, valsIsEmpty, listNe_isEmpty hfo, headerSet,
        canonKey_contentType, valsGet_set_self]
  · intro hb hf hfo
    show selectBody bd c = Body.empty
    simp [selectBody, hb, hf, hfo, valsIsEmpty]

/-- A builder with one file attachment and one form field. -/
def multipartClient : HTTPClient :=
  (New.AddFile "file1" "file1.txt" [102]).AddFormField "f" "1"

/-- Witness for C5: the multipart branch on a concrete builder. -/
theorem body_selection_witness :
    ∃ req : Request, (parseRequest "B" multipartClient).2 = Except.ok req ∧
      req.body = Body.multipartData
        (fileParts multipartClient.files ++ formParts multipartClient.form) "B" := by
  obtain ⟨req, h1, _, hmp, _, _⟩ :=
    body_selection "B" multipartClient (by decide) (by decide)
  exact ⟨req, h1, (hmp rfl (by decide)).1⟩

/-! ## C6: content-type exclusivity -/

/-- **C6.** `SetJSONBody(j)` stores `j` as the body, sets the
`Content-Type` header to `application/json` and forces method `POST`; a
subsequent `SetRawBody(r)` stores `r` as the body, removes the
`Content-Type` header entirely (the key is gone, not merely emptied) and
forces method `POST` — and `SetRawBody` removes `Content-Type` whatever the
builder's prior history, so after it the content type is empty and the body
bytes come from that last call. -/
theorem content_type_exclusivity (c : HTTPClient) (j r : Option (List Nat)) :
    (c.SetJSONBody j).body = j ∧
    headerGet (c.SetJSONBody j).header "Content-Type" = ["application/json"] ∧
    (c.SetJSONBody j).method = "POST" ∧
    ((c.SetJSONBody j).SetRawBody r).body = r ∧
    headerGet ((c.SetJSONBody j).SetRawBody r).header "Content-Type" = [] ∧
    valsHas ((c.SetJSONBody j).SetRawBody r).header "Content-Type" = false ∧
    ((c.SetJSONBody j).SetRawBody r).method = "POST" ∧
    (∀ c₀ : HTTPClient, valsHas (c₀.SetRawBody r).header "Content-Type" = false) := by
  refine ⟨rfl, ?_, rfl, rfl, ?_, ?_, rfl, ?_⟩
  · show headerGet (headerSet c.header "Content-Type" "application/json") "Content-Type" = _
    unfold headerGet headerSet
    rw [canonKey_contentType]
    exact valsGet_set_self _ _ _
  · show headerGet (headerDel _ "Content-Type") "Content-Type" = []
    unfold headerGet headerDel
    rw [canonKey_contentType]
    exact valsGet_eq_nil_of_has_eq_false (valsHas_del_self _ _)
  · show valsHas (headerDel _ "Content-Type") "Content-Type" = false
    unfold headerDel
    rw [canonKey_contentType]
    exact valsHas_del_self _ _
  · intro c₀
    show valsHas (headerDel c₀.header "Content-Type") "Content-Type" = false
    unfold headerDel
    rw [canonKey_contentType]
    exact valsHas_del_self _ _

/-! ## C7: path joining -/

theorem dropWhile_head_not {α : Type} (q : α → Bool) (l : List α) {c : α}
    (h : (l.dropWhile q).head? = some c) : q c = false := by
  induction l with
  | nil => simp [List.dropWhile] at h
  | cons x xs ih =>
    rw [List.dropWhile_cons] at h
    by_cases hx : q x
    · rw [if_pos hx] at h
      exact ih h
    · rw [if_neg hx] at h
      simp only [List.head?_cons, Option.some.injEq] at h
      subst h
      simpa using hx

/-- Trimming trailing slashes leaves no trailing slash. -/
theorem trimRightSlash_no_trailing (s : String) :
    strEndsSlash (trimRightSlash s) = false := by
  have hdata : (trimRightSlash s).data
      = (s.data.reverse.dropWhile (fun c => c == '/')).reverse := rfl
  unfold strEndsSlash
  rw [hdata, List.getLast?_reverse]
  cases hh : (s.data.reverse.dropWhile (fun c => c == '/')).head? with
  | none => rfl
  | some c =>
    show (c == '/') = false
    exact dropWhile_head_not (fun ch => ch == '/') s.data.reverse hh

/-- When the input has no leading slash (and is nonempty), `AppendPath`
prepends exactly one. -/
theorem segOf_no_slash_prefix {p : String} (hs : strStartsSlash p = false)
    (hp : p ≠ "") : segOf p = "/" ++ trimRightSlash p := by
  obtain ⟨c, cs, hd⟩ : ∃ c cs, p.data = c :: cs := by
    cases hdd : p.data with
    | nil =>
      exfalso
      apply hp
      cases p
      simp_all
    | cons c cs => exact ⟨c, cs, rfl⟩
  have hc : (c == '/') = false := by
    unfold strStartsSlash at hs
    rw [hd] at hs
    exact hs
  unfold segOf
  rw [hs]
  simp only [Bool.false_eq_true, if_false]
  unfold trimRightSlash
  rw [String.data_append]
  rw [show ("/" : String).data = [(Char.ofNat 47 : Char)] from rfl]
  have hne : p.data.reverse.dropWhile (fun ch => ch == '/') ≠ [] := by
    intro hcontra
    have := List.dropWhile_eq_nil_iff.mp hcontra c (by
      rw [hd]
      simp)
    simp [hc] at this
  rw [show ([(Char.ofNat 47 : Char)] ++ p.data).reverse
      = p.data.reverse ++ [(Char.ofNat 47 : Char)] by simp]
  rw [List.dropWhile_append]
  rw [if_neg (by simpa using hne)]
  rw [List.reverse_append]
  rfl

/-- When the input already starts with a slash, `AppendPath` keeps it. -/
theorem segOf_slash_prefix {p : String} (hs : strStartsSlash p = true) :
    segOf p = trimRightSlash p := by
  unfold segOf
  rw [hs]
  simp

/-- The builder of the spec's concrete example chain. -/
def pathChainClient : HTTPClient :=
  (((((New.SetURL "https://a.com/").AppendPath "p1").AppendPath
    "/p2").AppendPath "").AppendPath "/p3/").AppendPath "/p4/"

/-- **C7.** `SetURL` strips trailing slashes from the base URL;
`AppendPath` is a no-op on the empty string and otherwise concatenates the
normalized segment: a single leading slash is prepended when none is
present (an existing one is kept), trailing slashes are stripped, so the
segment never ends in a slash; on the concrete example chain the target is
`https://a.com/p1/p2/p3/p4`. -/
theorem append_path_joining :
    (∀ c : HTTPClient, c.AppendPath "" = c) ∧
    (∀ (c : HTTPClient) (p : String), p ≠ "" →
      (c.AppendPath p).path = c.path ++ segOf p) ∧
    (∀ p : String, strStartsSlash p = false → p ≠ "" →
      segOf p = "/" ++ trimRightSlash p) ∧
    (∀ p : String, strStartsSlash p = true → segOf p = trimRightSlash p) ∧
    (∀ p : String, strEndsSlash (segOf p) = false) ∧
    (∀ (c : HTTPClient) (u : String),
      (c.SetURL u).url = trimRightSlash u ∧ strEndsSlash (c.SetURL u).url = false) ∧
    pathChainClient.url ++ pathChainClient.path = "https://a.com/p1/p2/p3/p4" := by
  refine ⟨?_, ?_, ?_, ?_, ?_, ?_, by decide⟩
  · intro c
    simp [HTTPClient.AppendPath]
  · intro c p hp
    simp [HTTPClient.AppendPath, hp]
  · exact fun p hs hp => segOf_no_slash_prefix hs hp
  · exact fun p hs => segOf_slash_prefix hs
  · intro p
    unfold segOf
    exact trimRightSlash_no_trailing _
  · exact fun c u => ⟨rfl, trimRightSlash_no_trailing u⟩

/-- Witness for C7 on concrete segments. -/
theorem append_path_joining_witness :
    (New.AppendPath "p1").path = New.path ++ segOf "p1" ∧
    segOf "p1" = "/" ++ trimRightSlash "p1" :=
  ⟨append_path_joining.2.1 New "p1" (by decide),
   append_path_joining.2.2.1 "p1" (by decide) (by decide)⟩

/-! ## C8: multi-value accumulation -/

/-- What a successful `ParseRequest` outcome must be. -/
theorem parseRequest_ok_inv {bd : String} {c : HTTPClient} {req : Request}
    (h : (parseRequest bd c).2 = Except.ok req) :
    req = { method := c.method
            header := headerAfterBody bd c (headerAfterAuth c)
            urlStr := c.url ++ c.path
            rawQuery := if valsIsEmpty c.query then none else some (encodeVals c.query)
            body := selectBody bd c } := by
  unfold parseRequest at h
  split at h
  · exact Except.noConfusion h
  · split at h
    · exact Except.noConfusion h
    · exact (Except.ok.inj h).symm

/-- One accumulating call: `AddQuery`, `AddHeader` or `AddFormField`. -/
inductive AccCall where
  | q (k v : String)
  | hd (k v : String)
  | f (k v : String)
deriving DecidableEq, Repr

/-- The value an accumulating call contributes to query key `k`. -/
def AccCall.queryOf : AccCall → String → Option String
  | .q k' v, k => if k = k' then some v else none
  | _, _ => none

/-- The value an accumulating call contributes to form key `k`. -/
def AccCall.formOf : AccCall → String → Option String
  | .f k' v, k => if k = k' then some v else none
  | _, _ => none

/-- The value an accumulating call contributes to (canonical) header key
`k`. -/
def AccCall.headerOf : AccCall → String → Option String
  | .hd k' v, k => if k = canonKey k' then some v else none
  | _, _ => none

/-- Run a sequence of accumulating calls on a builder (value level). -/
def runAcc : List AccCall → HTTPClient → HTTPClient
  | [], c => c
  | AccCall.q k v :: rest, c => runAcc rest (c.AddQuery k v)
  | AccCall.hd k v :: rest, c => runAcc rest (c.AddHeader k v)
  | AccCall.f k v :: rest, c => runAcc rest (c.AddFormField k v)

theorem runAcc_query (calls : List AccCall) (c : HTTPClient) (k : String) :
    valsGet (runAcc calls c).query k =
      valsGet c.query k ++ calls.filterMap (fun a => a.queryOf k) := by
  induction calls generalizing c with
  | nil => simp [runAcc]
  | cons a rest ih =>
    cases a with
    | q k' v =>
      rw [show runAcc (AccCall.q k' v :: rest) c = runAcc rest (c.AddQuery k' v) from rfl,
        ih, show (c.AddQuery k' v).query = valsAdd c.query k' v from rfl, valsGet_add]
      by_cases hk : k = k' <;> simp [AccCall.queryOf, hk, List.filterMap_cons]
    | hd k' v =>
      rw [show runAcc (AccCall.hd k' v :: rest) c = runAcc rest (c.AddHeader k' v) from rfl, ih]
      simp [HTTPClient.AddHeader, AccCall.queryOf, List.filterMap_cons]
    | f k' v =>
      rw [show runAcc (AccCall.f k' v :: rest) c = runAcc rest (c.AddFormField k' v) from rfl, ih]
      simp [HTTPClient.AddFormField, AccCall.queryOf, List.filterMap_cons]

theorem runAcc_form (calls : List AccCall) (c : HTTPClient) (k : String) :
    valsGet (runAcc calls c).form k =
      valsGet c.form k ++ calls.filterMap (fun a => a.formOf k) := by
  induction calls generalizing c with
  | nil => simp [runAcc]
  | cons a rest ih =>
    cases a with
    | q k' v =>
      rw [show runAcc (AccCall.q k' v :: rest) c = runAcc rest (c.AddQuery k' v) from rfl, ih]
      simp [HTTPClient.AddQuery, AccCall.formOf, List.filterMap_cons]
    | hd k' v =>
      rw [show runAcc (AccCall.hd k' v :: rest) c = runAcc rest (c.AddHeader k' v) from rfl, ih]
      simp [HTTPClient.AddHeader, AccCall.formOf, List.filterMap_cons]
    | f k' v =>
      rw [show runAcc (AccCall.f k' v :: rest) c = runAcc rest (c.AddFormField k' v) from rfl,
        ih, show (c.AddFormField k' v).form = valsAdd c.form k' v from rfl, valsGet_add]
      by_cases hk : k = k' <;> simp [AccCall.formOf, hk, List.filterMap_cons]

theorem runAcc_header (calls : List AccCall) (c : HTTPClient) (k : String) :
    valsGet (runAcc calls c).header k =
      valsGet c.header k ++ calls.filterMap (fun a => a.headerOf k) := by
  induction calls generalizing c with
  | nil => simp [runAcc]
  | cons a rest ih =>
    cases a with
    | q k' v =>
      rw [show runAcc (AccCall.q k' v :: rest) c = runAcc rest (c.AddQuery k' v) from rfl, ih]
      simp [HTTPClient.AddQuery, AccCall.headerOf, List.filterMap_cons]
    | hd k' v =>
      rw [show runAcc (AccCall.hd k' v :: rest) c = runAcc rest (c.AddHeader k' v) from rfl,
        ih, show (c.AddHeader k' v).header = valsAdd c.header (canonKey k') v from rfl,
        valsGet_add]
      by_cases hk : k = canonKey k' <;> simp [AccCall.headerOf, hk, List.filterMap_cons]
    | f k' v =>
      rw [show runAcc (AccCall.f k' v :: rest) c = runAcc rest (c.AddFormField k' v) from rfl, ih]
      simp [HTTPClient.AddFormField, AccCall.headerOf, List.filterMap_cons]

/-- **C8.** For every sequence of `AddQuery`/`AddHeader`/`AddFormField`
calls — repeated keys included — the values of each key accumulate in call
order (later calls append, they never replace), and the accumulated maps
are what materialization consumes: a successful `ParseRequest` carries the
accumulated header values (at every key the algorithm itself does not
write) and the encoding of the accumulated query map.  `AddFormField` and
`AddFile` additionally force the method to `POST`. -/
theorem multi_value_accumulation (calls : List AccCall) (c : HTTPClient) (k : String) :
    (valsGet (runAcc calls c).query k =
      valsGet c.query k ++ calls.filterMap (fun a => a.queryOf k)) ∧
    (valsGet (runAcc calls c).form k =
      valsGet c.form k ++ calls.filterMap (fun a => a.formOf k)) ∧
    (valsGet (runAcc calls c).header k =
      valsGet c.header k ++ calls.filterMap (fun a => a.headerOf k)) ∧
    (∀ (c₀ : HTTPClient) (k₀ v₀ : String), (c₀.AddFormField k₀ v₀).method = "POST") ∧
    (∀ (c₀ : HTTPClient) (k₀ fn : String) (bs : List Nat),
      (c₀.AddFile k₀ fn bs).method = "POST") ∧
    (∀ (bd : String) (req : Request),
      (parseRequest bd (runAcc calls c)).2 = Except.ok req →
      (k ≠ "User-Agent" → k ≠ "Authorization" → k ≠ "Content-Type" →
        valsGet req.header k = valsGet (runAcc calls c).header k) ∧
      req.rawQuery = (if valsIsEmpty (runAcc calls c).query then none
        else some (encodeVals (runAcc calls c).query))) := by
  refine ⟨runAcc_query calls c k, runAcc_form calls c k, runAcc_header calls c k,
    fun _ _ _ => rfl, fun _ _ _ _ => rfl, ?_⟩
  intro bd req hreq
  have hr := parseRequest_ok_inv hreq
  subst hr
  refine ⟨?_, rfl⟩
  intro h1 h2 h3
  show valsGet (headerAfterBody bd _ (headerAfterAuth _)) k = _
  rw [headerAfterBody_get_ne _ _ _ h3]
  exact headerAfterAuth_get_ne _ h1 h2

/-- A concrete accumulation sequence with a repeated query key. -/
def accDemo : List AccCall :=
  [AccCall.q "a" "1", AccCall.hd "x-k" "v", AccCall.q "a" "2"]

/-- Witness for C8: both values of the repeated key survive, in order, and
the header key is canonicalized. -/
theorem multi_value_accumulation_witness :
    valsGet (runAcc accDemo New).query "a" = ["1", "2"] ∧
    valsGet (runAcc accDemo New).header "X-K" = ["v"] := by
  have h1 := (multi_value_accumulation accDemo New "a").1
  have h2 := (multi_value_accumulation accDemo New "X-K").2.2.1
  constructor
  · rw [h1]
    decide
  · rw [h2]
    decide

/-! ## C9: the response wrapper -/

/-- **C9.** `AsBytes` returns the deferred send-time error when one exists
(and no bytes); with no deferred error and no response object it fails with
the "the request is not sent" error; otherwise it returns the full body
bytes.  `AsString` returns exactly the bytes of `AsBytes` reinterpreted as
text without validation (`b2s`), propagating the same errors. -/
theorem response_error_propagation (r : Response) :
    (∀ e, r.err = some e → r.AsBytes = Except.error e) ∧
    (r.err = none → r.resp = none → r.AsBytes = Except.error notSentMsg) ∧
    (∀ bs, r.err = none → r.resp = some bs → r.AsBytes = Except.ok bs) ∧
    r.AsString = r.AsBytes := by
  refine ⟨?_, ?_, ?_, ?_⟩
  · intro e he
    simp [Response.AsBytes, he]
  · intro he hr
    simp [Response.AsBytes, he, hr]
  · intro bs he hr
    simp [Response.AsBytes, he, hr]
  · cases h : r.AsBytes <;> simp [Response.AsString, b2s, h]

/-- Witness for C9 on the three concrete wrapper shapes. -/
theorem response_error_propagation_witness :
    Response.AsBytes { resp := none, err := some "boom" } = Except.error "boom" ∧
    Response.AsBytes { resp := none, err := none } = Except.error notSentMsg ∧
    Response.AsBytes { resp := some [104], err := none } = Except.ok [104] :=
  ⟨(response_error_propagation _).1 "boom" rfl,
   (response_error_propagation _).2.1 rfl rfl,
   (response_error_propagation _).2.2.1 [104] rfl rfl⟩

/-! ## C10: `SetRawBody(nil)` leaves the body unset -/

/-- **C10.** "A body is set" means the stored slice is non-nil: after
`SetRawBody(nil)` the body is unset, so with form fields present (and no
files) `ParseRequest` raises no multiple-content-type conflict and takes
the URL-encoded form branch — even though the call still forces `POST` and
deletes any `Content-Type` header. -/
theorem setRawBody_nil_unsets (bd : String) (c : HTTPClient)
    (hform : c.form ≠ []) (hfiles : c.files = [])
    (hurl : urlParse (c.url ++ c.path) = Except.ok ()) :
    (c.SetRawBody none).body = none ∧
    (c.SetRawBody none).method = "POST" ∧
    valsHas (c.SetRawBody none).header "Content-Type" = false ∧
    (parseRequest bd (c.SetRawBody none)).2 ≠ Except.error conflictMsg ∧
    (∃ req, (parseRequest bd (c.SetRawBody none)).2 = Except.ok req ∧
      req.body = Body.urlencoded (encodeVals c.form) ∧
      valsGet req.header "Content-Type" = ["application/x-www-form-urlencoded"]) := by
  have hconf : conflictB (c.SetRawBody none) = false := by
    simp [conflictB, HTTPClient.SetRawBody]
  have hctl : hasCTL ((c.SetRawBody none).url ++ (c.SetRawBody none).path) = false :=
    hasCTL_false_of_urlParse hurl
  have hok := parseRequest_ok bd (c.SetRawBody none) hctl hconf
  have hhb : headerAfterBody bd (c.SetRawBody none)
      (headerAfterAuth (c.SetRawBody none)) =
      headerSet (headerAfterAuth (c.SetRawBody none)) "Content-Type"
        "application/x-www-form-urlencoded" := by
    simp [headerAfterBody, HTTPClient.SetRawBody, hfiles, valsIsEmpty, listNe_isEmpty hform]
  refine ⟨rfl, rfl, ?_, ?_, ?_⟩
  · show valsHas (headerDel c.header "Content-Type") "Content-Type" = false
    unfold headerDel
    rw [canonKey_contentType]
    exact valsHas_del_self _ _
  · rw [hok]
    simp
  · refine ⟨_, hok, ?_, ?_⟩
    · show selectBody bd (c.SetRawBody none) = _
      simp [selectBody, HTTPClient.SetRawBody, hfiles, valsIsEmpty, listNe_isEmpty hform]
    · show valsGet (headerAfterBody bd (c.SetRawBody none)
          (headerAfterAuth (c.SetRawBody none))) "Content-Type" = _
      rw [hhb]
      unfold headerSet
      rw [canonKey_contentType]
      exact valsGet_set_self _ _ _

/-- Witness for C10 on a concrete builder with one form field. -/
theorem setRawBody_nil_unsets_witness :
    ((New.AddFormField "f" "1").SetRawBody none).body = none ∧
    (parseRequest "B" ((New.AddFormField "f" "1").SetRawBody none)).2 ≠
      Except.error conflictMsg := by
  have h := setRawBody_nil_unsets "B" (New.AddFormField "f" "1")
    (by decide) rfl (by decide)
  exact ⟨h.1, h.2.2.2.1⟩

end Unirest
